import Mathlib

/-!
Verification of `src/Calculator.py` (Real-Estate-Proforma-Calculator).

The core of the repository is the single function
`calculate_development_returns(investor_equity, cash_flows)`, which returns a
pair `(equity_multiple, irr_percentage)`.

Modelling choices:
* Python numbers are modelled as exact rationals (`ℚ`).  Python's `round(x, 2)`
  is modelled as round-half-to-even at two decimal places (Python's default
  rounding mode) on the exact value.
* Python exceptions that can escape the function (`IndexError` from
  `cash_flows[0]` on an empty list, `ZeroDivisionError` from division by a
  zero equity) are modelled with `Except PyError`.
* The external IRR solver `numpy_financial.irr` is not part of this
  repository's sources; it is modelled from the spec (see `npf_irr` below) as
  a function that either returns a rate `r > -1` zeroing the net present value
  of the cash-flow series, or fails.  The Python `try/except ValueError`
  around the solver call is modelled by mapping the solver's failure to the
  sentinel string, exactly as line 31 of the source does.
-/

/-- Sum of all strictly positive entries of the cash-flow list; the source's
`total_distributions = sum(c for c in cash_flows if c > 0)` (line 20). -/
def total_distributions_of (cash_flows : List ℚ) : ℚ :=
  (cash_flows.filter (fun c => 0 < c)).sum

/-- The source's `total_profit = total_distributions - abs(cash_flows[0])`
(line 21).  `headI` returns `cash_flows[0]`; the source only evaluates this
on non-empty lists (an empty list raises `IndexError`, see
`calculate_development_returns`). -/
def total_profit_of (cash_flows : List ℚ) : ℚ :=
  total_distributions_of cash_flows - |cash_flows.headI|

/-- Round-half-to-even to an integer, Python's default rounding of `round`. -/
def roundHalfEven (q : ℚ) : ℤ :=
  if q - ⌊q⌋ < 1 / 2 then ⌊q⌋
  else if 1 / 2 < q - ⌊q⌋ then ⌊q⌋ + 1
  else if ⌊q⌋ % 2 = 0 then ⌊q⌋ else ⌊q⌋ + 1

/-- Python's `round(x, 2)` on an exact rational value. -/
def pyRound2Q (q : ℚ) : ℚ := (roundHalfEven (100 * q) : ℚ) / 100

/-- Round-half-to-even to an integer, on a real argument (the IRR returned by
the solver is a real number). -/
noncomputable def roundHalfEvenR (y : ℝ) : ℤ :=
  if y - ⌊y⌋ < 1 / 2 then ⌊y⌋
  else if 1 / 2 < y - ⌊y⌋ then ⌊y⌋ + 1
  else if ⌊y⌋ % 2 = 0 then ⌊y⌋ else ⌊y⌋ + 1

/-- Python's `round(x, 2)` on a real value. -/
noncomputable def pyRound2R (y : ℝ) : ℝ := (roundHalfEvenR (100 * y) : ℝ) / 100

/-- Net present value of the cash-flow series as a function of the discount
factor `x = 1 / (1 + r)`, in Horner form:
`npv cf x = Σ cf[i] * x ^ i = Σ cf[i] / (1 + r) ^ i`. -/
def npv (cash_flows : List ℚ) (x : ℝ) : ℝ :=
  match cash_flows with
  | [] => 0
  | c :: rest => (c : ℝ) + x * npv rest x

/-- The cash-flow series admits an IRR: it is not identically zero and some
rate `r > -1` zeroes its net present value. -/
def hasIrr (cash_flows : List ℚ) : Prop :=
  (∃ c ∈ cash_flows, c ≠ 0) ∧ ∃ r : ℝ, -1 < r ∧ npv cash_flows (1 / (1 + r)) = 0

/-- Modelled from the spec: `numpy_financial.irr`, the external IRR solver
called on line 28 of the source, whose code is not under `src/`.  Per the
spec (§4.1 IRR steps 1–4) it attempts to solve `Σ cashFlows[i] / (1+r)^i = 0`
for the rate `r` and fails — the failure the source catches as `ValueError` —
"when the cash-flow sign pattern admits no real root (e.g., all flows same
sign)" or the solver cannot find a finite root.  The model returns a rate
`r > -1` zeroing the NPV when the series is not identically zero and such a
rate exists, and `none` (the solver error) otherwise. -/
noncomputable def npf_irr (cash_flows : List ℚ) : Option ℝ :=
  @dite _ (hasIrr cash_flows) (Classical.propDecidable _)
    (fun h => some h.2.choose) (fun _ => none)

/-- Errors the Python function can raise to its caller. -/
inductive PyError where
  | indexError
  | zeroDivisionError
deriving DecidableEq

/-- The IRR slot of the returned pair: either a numeric percentage or the
placeholder string substituted on solver failure. -/
inductive IrrOut where
  | pct : ℝ → IrrOut
  | na : String → IrrOut

/-- The sentinel the source substitutes when the IRR computation fails
(line 31). -/
def irrSentinel : IrrOut := IrrOut.na "N/A (IRR calculation failed)"

/-- Shallow embedding of `calculate_development_returns` (lines 3–33 of
`src/Calculator.py`).  Mirrors the source line by line:
`total_distributions` (line 20), `total_profit` (line 21, computed and then
unused), `equity_multiple = total_distributions / abs(investor_equity)`
(line 22), the `try`/`except ValueError` around `npf.irr` (lines 27–31), and
`return round(equity_multiple, 2), irr_percentage` (line 33). -/
noncomputable def calculate_development_returns (investor_equity : ℚ)
    (cash_flows : List ℚ) : Except PyError (ℚ × IrrOut) :=
  let total_distributions := total_distributions_of cash_flows
  match cash_flows.head? with
  | none => Except.error PyError.indexError
  | some c0 =>
    let _total_profit := total_distributions - |c0|
    if |investor_equity| = 0 then Except.error PyError.zeroDivisionError
    else
      let equity_multiple := total_distributions / |investor_equity|
      let irr_percentage :=
        match npf_irr cash_flows with
        | some irr => IrrOut.pct (pyRound2R (irr * 100))
        | none => irrSentinel
      Except.ok (pyRound2Q equity_multiple, irr_percentage)

@[simp] lemma npv_nil (x : ℝ) : npv [] x = 0 := rfl

@[simp] lemma npv_cons (c : ℚ) (rest : List ℚ) (x : ℝ) :
    npv (c :: rest) x = (c : ℝ) + x * npv rest x := rfl

lemma npv_nonneg {cf : List ℚ} {x : ℝ} (hx : 0 ≤ x)
    (hall : ∀ c ∈ cf, 0 ≤ c) : 0 ≤ npv cf x := by
  induction cf with
  | nil => simp
  | cons c rest ih =>
    have hc : (0 : ℝ) ≤ (c : ℝ) := by exact_mod_cast hall c (by simp)
    have hrest : 0 ≤ npv rest x := ih (fun d hd => hall d (by simp [hd]))
    have := mul_nonneg hx hrest
    simpa using add_nonneg hc this

lemma npv_pos {cf : List ℚ} {x : ℝ} (hx : 0 < x)
    (hall : ∀ c ∈ cf, 0 ≤ c) (hex : ∃ c ∈ cf, c ≠ 0) : 0 < npv cf x := by
  induction cf with
  | nil => simp at hex
  | cons c rest ih =>
    have hc : (0 : ℝ) ≤ (c : ℝ) := by exact_mod_cast hall c (by simp)
    have hallr : ∀ d ∈ rest, 0 ≤ d := fun d hd => hall d (by simp [hd])
    obtain ⟨d, hd, hdne⟩ := hex
    rcases List.mem_cons.mp hd with hdc | hdr
    · rw [hdc] at hdne
      have hcpos : (0 : ℝ) < (c : ℝ) := by
        have := lt_of_le_of_ne (hall c (by simp)) (Ne.symm hdne)
        exact_mod_cast this
      have := mul_nonneg hx.le (npv_nonneg hx.le hallr)
      simpa using add_pos_of_pos_of_nonneg hcpos this
    · have hrest : 0 < npv rest x := ih hallr ⟨d, hdr, hdne⟩
      have := mul_pos hx hrest
      simpa using add_pos_of_nonneg_of_pos hc this

lemma npv_neg_of_nonpos {cf : List ℚ} {x : ℝ} (hx : 0 < x)
    (hall : ∀ c ∈ cf, c ≤ 0) (hex : ∃ c ∈ cf, c ≠ 0) : npv cf x < 0 := by
  have hall' : ∀ c ∈ cf.map (fun c => -c), 0 ≤ c := by
    intro c hc
    obtain ⟨d, hd, rfl⟩ := List.mem_map.mp hc
    simpa using hall d hd
  have hex' : ∃ c ∈ cf.map (fun c => -c), c ≠ 0 := by
    obtain ⟨d, hd, hdne⟩ := hex
    exact ⟨-d, List.mem_map.mpr ⟨d, hd, rfl⟩, by simpa using hdne⟩
  have hmap : ∀ (l : List ℚ), npv (l.map (fun c => -c)) x = -npv l x := by
    intro l
    induction l with
    | nil => simp
    | cons c rest ih => simp [ih]; ring
  have := npv_pos hx hall' hex'
  rw [hmap] at this
  linarith

lemma npf_irr_eq_none {cf : List ℚ} (h : ¬ hasIrr cf) : npf_irr cf = none := by
  rw [npf_irr, dif_neg h]

lemma npf_irr_of_nonneg {cf : List ℚ} (hall : ∀ c ∈ cf, 0 ≤ c) :
    npf_irr cf = none := by
  refine npf_irr_eq_none ?_
  rintro ⟨hex, r, hr, hroot⟩
  have hx : (0 : ℝ) < 1 / (1 + r) := by
    have : (0 : ℝ) < 1 + r := by linarith
    positivity
  exact absurd hroot (ne_of_gt (npv_pos hx hall hex))

lemma npf_irr_of_nonpos {cf : List ℚ} (hall : ∀ c ∈ cf, c ≤ 0) :
    npf_irr cf = none := by
  refine npf_irr_eq_none ?_
  rintro ⟨hex, r, hr, hroot⟩
  have hx : (0 : ℝ) < 1 / (1 + r) := by
    have : (0 : ℝ) < 1 + r := by linarith
    positivity
  exact absurd hroot (ne_of_lt (npv_neg_of_nonpos hx hall hex))

lemma calculate_cons (e c : ℚ) (rest : List ℚ) (he : e ≠ 0) :
    calculate_development_returns e (c :: rest) =
      Except.ok (pyRound2Q (total_distributions_of (c :: rest) / |e|),
        match npf_irr (c :: rest) with
        | some irr => IrrOut.pct (pyRound2R (irr * 100))
        | none => irrSentinel) := by
  simp [calculate_development_returns, abs_eq_zero, he]

lemma npf_irr_neg100 : npf_irr [-100, 0, 0] = none :=
  npf_irr_of_nonpos (by intro c hc; fin_cases hc <;> norm_num)

lemma calculate_neg100 :
    calculate_development_returns 100 [-100, 0, 0] = Except.ok (0, irrSentinel) := by
  rw [calculate_cons 100 (-100) [0, 0] (by norm_num), npf_irr_neg100]
  norm_num [total_distributions_of, pyRound2Q, roundHalfEven]

/-- C1: for every cash-flow list with at least 2 entries and every positive
investor equity, the equity-multiple component of the result equals
`round(totalDistributions / investorEquity, 2)`, where `totalDistributions`
is the sum of exactly the entries `> 0`, regardless of position. -/
theorem c1_equity_multiple_eq (e : ℚ) (cf : List ℚ)
    (hlen : 2 ≤ cf.length) (he : 0 < e) :
    Except.map Prod.fst (calculate_development_returns e cf) =
      Except.ok (pyRound2Q (total_distributions_of cf / e)) := by
  cases cf with
  | nil => simp at hlen
  | cons c rest =>
    rw [calculate_cons e c rest (ne_of_gt he), abs_of_pos he]
    simp [Except.map]

/-- Witness for C1 at the repository's example input. -/
theorem c1_equity_multiple_eq_witness :
    2 ≤ ([-400000, 0, 650000] : List ℚ).length ∧ (0 : ℚ) < 400000 ∧
      Except.map Prod.fst
          (calculate_development_returns 400000 [-400000, 0, 650000]) =
        Except.ok (pyRound2Q (total_distributions_of [-400000, 0, 650000] / 400000)) :=
  ⟨by simp, by norm_num,
    c1_equity_multiple_eq 400000 [-400000, 0, 650000] (by simp) (by norm_num)⟩

/-- C3: an all-nonnegative or all-nonpositive cash-flow sequence yields the
IRR-failure sentinel as the IRR component of the result. -/
theorem c3_degenerate_sign_sentinel (e : ℚ) (cf : List ℚ) (he : e ≠ 0)
    (hne : cf ≠ [])
    (h : (∀ c ∈ cf, 0 ≤ c) ∨ (∀ c ∈ cf, c ≤ 0)) :
    Except.map Prod.snd (calculate_development_returns e cf) =
      Except.ok irrSentinel := by
  have hirr : npf_irr cf = none := h.elim npf_irr_of_nonneg npf_irr_of_nonpos
  cases cf with
  | nil => exact absurd rfl hne
  | cons c rest =>
    rw [calculate_cons e c rest he, hirr]
    simp [Except.map]

/-- Witness for C3 at an all-nonpositive input. -/
theorem c3_degenerate_sign_sentinel_witness :
    (100 : ℚ) ≠ 0 ∧ ([-100, -200] : List ℚ) ≠ [] ∧
      ((∀ c ∈ ([-100, -200] : List ℚ), 0 ≤ c) ∨
        (∀ c ∈ ([-100, -200] : List ℚ), c ≤ 0)) ∧
      Except.map Prod.snd (calculate_development_returns 100 [-100, -200]) =
        Except.ok irrSentinel :=
  ⟨by norm_num, by simp,
    Or.inr (by intro c hc; fin_cases hc <;> norm_num),
    c3_degenerate_sign_sentinel 100 [-100, -200] (by norm_num) (by simp)
      (Or.inr (by intro c hc; fin_cases hc <;> norm_num))⟩

/-- C6: for `investorEquity = 100` and `cashFlows = [-100, 0, 0]` the function
returns equity multiple exactly `0.0` and the IRR-failure sentinel. -/
theorem c6_zero_distribution_scenario :
    calculate_development_returns 100 [-100, 0, 0] = Except.ok (0, irrSentinel) :=
  calculate_neg100

lemma sqrt138_lb : (1.27475 : ℝ) < Real.sqrt (13 / 8) := by
  have h := Real.sq_sqrt (show (0 : ℝ) ≤ 13 / 8 by norm_num)
  have h0 := Real.sqrt_nonneg (13 / 8 : ℝ)
  nlinarith

lemma sqrt138_ub : Real.sqrt (13 / 8) < 1.2748 := by
  have h := Real.sq_sqrt (show (0 : ℝ) ≤ 13 / 8 by norm_num)
  have h0 := Real.sqrt_nonneg (13 / 8 : ℝ)
  nlinarith

lemma npv_400 (x : ℝ) : npv [-400000, 0, 650000] x = -400000 + 650000 * x ^ 2 := by
  simp [npv]
  ring

lemma irr_unique_400 (r : ℝ) (hr : -1 < r)
    (h : npv [-400000, 0, 650000] (1 / (1 + r)) = 0) :
    r = Real.sqrt (13 / 8) - 1 := by
  have hs : (0 : ℝ) < 1 + r := by linarith
  rw [npv_400] at h
  have h2 : (1 + r) ^ 2 = 13 / 8 := by
    field_simp at h
    nlinarith [sq_nonneg (1 + r)]
  have hsq : Real.sqrt (13 / 8) = 1 + r := by
    rw [← h2, Real.sqrt_sq hs.le]
  linarith

lemma hasIrr_400 : hasIrr [-400000, 0, 650000] := by
  constructor
  · exact ⟨-400000, by simp, by norm_num⟩
  · refine ⟨Real.sqrt (13 / 8) - 1, by have := sqrt138_lb; linarith, ?_⟩
    rw [npv_400]
    have hpos : (0 : ℝ) < Real.sqrt (13 / 8) := lt_trans (by norm_num) sqrt138_lb
    have h2 : Real.sqrt (13 / 8) ^ 2 = 13 / 8 :=
      Real.sq_sqrt (by norm_num)
    have harg : 1 + (Real.sqrt (13 / 8) - 1) = Real.sqrt (13 / 8) := by ring
    rw [harg]
    field_simp
    nlinarith [h2]

lemma npf_irr_400 : npf_irr [-400000, 0, 650000] = some (Real.sqrt (13 / 8) - 1) := by
  rw [npf_irr, dif_pos hasIrr_400]
  exact congrArg some
    (irr_unique_400 _ hasIrr_400.2.choose_spec.1 hasIrr_400.2.choose_spec.2)

lemma pyRound2R_2748 : pyRound2R ((Real.sqrt (13 / 8) - 1) * 100) = 27.48 := by
  have lb := sqrt138_lb
  have ub := sqrt138_ub
  have hfloor : ⌊(100 : ℝ) * ((Real.sqrt (13 / 8) - 1) * 100)⌋ = 2747 := by
    rw [Int.floor_eq_iff]
    constructor
    · push_cast
      nlinarith
    · push_cast
      nlinarith
  rw [pyRound2R, roundHalfEvenR, hfloor]
  rw [if_neg (by push_cast; nlinarith), if_pos (by push_cast; nlinarith)]
  norm_num

lemma pyRound2Q_em400 :
    pyRound2Q (total_distributions_of [-400000, 0, 650000] / |(400000 : ℚ)|) = 1.62 := by
  norm_num [total_distributions_of, pyRound2Q, roundHalfEven]

/-- C5: for `investorEquity = 400000` and `cashFlows = [-400000, 0, 650000]`
the function returns equity multiple `1.62` and IRR percentage `27.48`
(`round(100 * (sqrt(650000/400000) - 1), 2)`), and the internally derived
total profit equals `250000`. -/
theorem c5_concrete_scenario :
    calculate_development_returns 400000 [-400000, 0, 650000] =
      Except.ok (1.62, IrrOut.pct 27.48) ∧
    total_profit_of [-400000, 0, 650000] = 250000 := by
  constructor
  · rw [calculate_cons 400000 (-400000) [0, 650000] (by norm_num), npf_irr_400,
      pyRound2Q_em400]
    simp only [pyRound2R_2748]
  · norm_num [total_profit_of, total_distributions_of]

/-- C2: once execution reaches the IRR call (the preceding lines need a
non-empty list and a nonzero equity), the call always completes with an `ok`
result, and a solver failure surfaces as the sentinel embedded in the result
rather than as a propagated error. -/
theorem c2_solver_error_caught (e : ℚ) (cf : List ℚ) (hne : cf ≠ [])
    (he : e ≠ 0) :
    (calculate_development_returns e cf).isOk = true ∧
    (npf_irr cf = none →
      Except.map Prod.snd (calculate_development_returns e cf) =
        Except.ok irrSentinel) := by
  cases cf with
  | nil => exact absurd rfl hne
  | cons c rest =>
    rw [calculate_cons e c rest he]
    refine ⟨rfl, fun h => ?_⟩
    rw [h]
    simp [Except.map]

/-- Witness for C2 at a concrete input. -/
theorem c2_solver_error_caught_witness :
    ([-100, 0, 0] : List ℚ) ≠ [] ∧ (100 : ℚ) ≠ 0 ∧
      ((calculate_development_returns 100 [-100, 0, 0]).isOk = true ∧
        (npf_irr [-100, 0, 0] = none →
          Except.map Prod.snd (calculate_development_returns 100 [-100, 0, 0]) =
            Except.ok irrSentinel)) :=
  ⟨by simp, by norm_num,
    c2_solver_error_caught 100 [-100, 0, 0] (by simp) (by norm_num)⟩

/-- C4: whenever the result carries the IRR-failure sentinel, the
equity-multiple component is still the fully computed
`round(totalDistributions / investorEquity, 2)`. -/
theorem c4_em_survives_irr_failure (e : ℚ) (cf : List ℚ) (he : 0 < e)
    (h : Except.map Prod.snd (calculate_development_returns e cf) =
      Except.ok irrSentinel) :
    Except.map Prod.fst (calculate_development_returns e cf) =
      Except.ok (pyRound2Q (total_distributions_of cf / e)) := by
  cases cf with
  | nil => simp [calculate_development_returns, Except.map] at h
  | cons c rest =>
    rw [calculate_cons e c rest (ne_of_gt he), abs_of_pos he]
    simp [Except.map]

/-- Witness for C4 at the zero-distribution input. -/
theorem c4_em_survives_irr_failure_witness :
    (0 : ℚ) < 100 ∧
      Except.map Prod.snd (calculate_development_returns 100 [-100, 0, 0]) =
        Except.ok irrSentinel ∧
      Except.map Prod.fst (calculate_development_returns 100 [-100, 0, 0]) =
        Except.ok (pyRound2Q (total_distributions_of [-100, 0, 0] / 100)) :=
  ⟨by norm_num, by rw [calculate_neg100]; rfl,
    c4_em_survives_irr_failure 100 [-100, 0, 0] (by norm_num)
      (by rw [calculate_neg100]; rfl)⟩

/-- C7: under the preconditions (at least two cash flows, positive equity)
the computation has no failure path: it always returns an `ok` result. -/
theorem c7_no_failure_path (e : ℚ) (cf : List ℚ) (hlen : 2 ≤ cf.length)
    (he : 0 < e) : (calculate_development_returns e cf).isOk = true := by
  cases cf with
  | nil => simp at hlen
  | cons c rest =>
    rw [calculate_cons e c rest (ne_of_gt he)]
    rfl

/-- Witness for C7 at a concrete input. -/
theorem c7_no_failure_path_witness :
    2 ≤ ([-100, 150] : List ℚ).length ∧ (0 : ℚ) < 100 ∧
      (calculate_development_returns 100 [-100, 150]).isOk = true :=
  ⟨by simp, by norm_num,
    c7_no_failure_path 100 [-100, 150] (by simp) (by norm_num)⟩

/-- C8: the computation is a deterministic pure mapping — equal inputs give
equal results (the embedding is a total function with no state or effects). -/
theorem c8_deterministic (e₁ e₂ : ℚ) (cf₁ cf₂ : List ℚ) (h1 : e₁ = e₂)
    (h2 : cf₁ = cf₂) :
    calculate_development_returns e₁ cf₁ = calculate_development_returns e₂ cf₂ := by
  rw [h1, h2]

/-- Witness for C8 at a concrete input. -/
theorem c8_deterministic_witness :
    (400000 : ℚ) = 400000 ∧ ([-400000, 0, 650000] : List ℚ) = [-400000, 0, 650000] ∧
      calculate_development_returns 400000 [-400000, 0, 650000] =
        calculate_development_returns 400000 [-400000, 0, 650000] :=
  ⟨rfl, rfl, c8_deterministic 400000 400000 _ _ rfl rfl⟩

/-- C9: the equity multiple is computed from `abs(investor_equity)`, so
negating the equity leaves the whole result unchanged, and the IRR component
does not depend on the equity argument at all. -/
theorem c9_abs_equity (e e' : ℚ) (cf : List ℚ) (he : e ≠ 0) (he' : e' ≠ 0) :
    calculate_development_returns e cf = calculate_development_returns (-e) cf ∧
    Except.map Prod.snd (calculate_development_returns e cf) =
      Except.map Prod.snd (calculate_development_returns e' cf) := by
  constructor
  · cases cf with
    | nil => rfl
    | cons c rest =>
      rw [calculate_cons e c rest he,
        calculate_cons (-e) c rest (neg_ne_zero.mpr he), abs_neg]
  · cases cf with
    | nil => rfl
    | cons c rest =>
      rw [calculate_cons e c rest he, calculate_cons e' c rest he']
      simp [Except.map]

/-- Witness for C9 at concrete inputs. -/
theorem c9_abs_equity_witness :
    (5 : ℚ) ≠ 0 ∧ (7 : ℚ) ≠ 0 ∧
      (calculate_development_returns 5 [-5, 6] =
          calculate_development_returns (-5) [-5, 6] ∧
        Except.map Prod.snd (calculate_development_returns 5 [-5, 6]) =
          Except.map Prod.snd (calculate_development_returns 7 [-5, 6])) :=
  ⟨by norm_num, by norm_num,
    c9_abs_equity 5 7 [-5, 6] (by norm_num) (by norm_num)⟩

/-- C10: the equity-multiple component is invariant under any permutation of
the cash-flow list. -/
theorem c10_em_perm_invariant (e : ℚ) (cf cf' : List ℚ) (h : cf.Perm cf') :
    Except.map Prod.fst (calculate_development_returns e cf) =
      Except.map Prod.fst (calculate_development_returns e cf') := by
  have htd : total_distributions_of cf = total_distributions_of cf' :=
    (h.filter _).sum_eq
  cases cf with
  | nil =>
    have : cf' = [] := h.symm.eq_nil
    rw [this]
  | cons c rest =>
    cases cf' with
    | nil => simp at h
    | cons c' rest' =>
      by_cases he : e = 0
      · subst he
        simp [calculate_development_returns]
      · rw [calculate_cons e c rest he, calculate_cons e c' rest' he, htd]
        simp [Except.map]

/-- Witness for C10 at a concrete transposition. -/
theorem c10_em_perm_invariant_witness :
    (([-1, 2] : List ℚ).Perm [2, -1]) ∧
      Except.map Prod.fst (calculate_development_returns 1 [-1, 2]) =
        Except.map Prod.fst (calculate_development_returns 1 [2, -1]) :=
  ⟨List.Perm.swap 2 (-1) [],
    c10_em_perm_invariant 1 [-1, 2] [2, -1] (List.Perm.swap 2 (-1) [])⟩
